import Mathlib

/-!
Shallow embedding of the `raytracer` program (`src/main.rs`) over the reals.

The program's `f32` scalars are modelled as real numbers; `cgmath`'s
`Point3`/`Vector3` become the structure `V3`, `Vector4` becomes `Fin 4 → ℝ`,
and `Matrix4` becomes `Matrix (Fin 4) (Fin 4) ℝ` (with Mathlib's nonsingular
inverse standing in for `Matrix4::invert().unwrap()`).  `Option<f32>` becomes
`Option ℝ`.  Each Lean definition mirrors the Rust item of the same name.
-/

namespace Raytracer

/-- Three-component vector of reals, modelling `cgmath`'s `Point3<f32>` and
`Vector3<f32>` (the program uses both interchangeably for points, directions
and RGB colors). -/
@[ext]
structure V3 where
  x : ℝ
  y : ℝ
  z : ℝ

instance : Zero V3 := ⟨⟨0, 0, 0⟩⟩

instance : Add V3 := ⟨fun a b => ⟨a.x + b.x, a.y + b.y, a.z + b.z⟩⟩

instance : Sub V3 := ⟨fun a b => ⟨a.x - b.x, a.y - b.y, a.z - b.z⟩⟩

/-- Component-wise product, modelling `cgmath`'s element-wise
`Mul<Vector3> for Vector3` used as `color * illumination`. -/
instance : Mul V3 := ⟨fun a b => ⟨a.x * b.x, a.y * b.y, a.z * b.z⟩⟩

/-- Scalar multiple, modelling `Vector3<f32> * f32`. -/
instance : SMul ℝ V3 := ⟨fun r a => ⟨r * a.x, r * a.y, r * a.z⟩⟩

@[simp] theorem V3.zero_x : (0 : V3).x = 0 := rfl

@[simp] theorem V3.zero_y : (0 : V3).y = 0 := rfl

@[simp] theorem V3.zero_z : (0 : V3).z = 0 := rfl

@[simp] theorem V3.add_x (a b : V3) : (a + b).x = a.x + b.x := rfl

@[simp] theorem V3.add_y (a b : V3) : (a + b).y = a.y + b.y := rfl

@[simp] theorem V3.add_z (a b : V3) : (a + b).z = a.z + b.z := rfl

@[simp] theorem V3.sub_x (a b : V3) : (a - b).x = a.x - b.x := rfl

@[simp] theorem V3.sub_y (a b : V3) : (a - b).y = a.y - b.y := rfl

@[simp] theorem V3.sub_z (a b : V3) : (a - b).z = a.z - b.z := rfl

@[simp] theorem V3.mul_x (a b : V3) : (a * b).x = a.x * b.x := rfl

@[simp] theorem V3.mul_y (a b : V3) : (a * b).y = a.y * b.y := rfl

@[simp] theorem V3.mul_z (a b : V3) : (a * b).z = a.z * b.z := rfl

@[simp] theorem V3.smul_x (r : ℝ) (a : V3) : (r • a).x = r * a.x := rfl

@[simp] theorem V3.smul_y (r : ℝ) (a : V3) : (r • a).y = r * a.y := rfl

@[simp] theorem V3.smul_z (r : ℝ) (a : V3) : (r • a).z = r * a.z := rfl

/-- Dot product of three-vectors (`cgmath`'s `InnerSpace::dot`). -/
noncomputable def dot3 (a b : V3) : ℝ := a.x * b.x + a.y * b.y + a.z * b.z

/-- Euclidean magnitude of a three-vector (`InnerSpace::magnitude`). -/
noncomputable def norm3 (v : V3) : ℝ := Real.sqrt (dot3 v v)

/-- `InnerSpace::normalize`: the vector scaled by the reciprocal of its
magnitude (junk on the zero vector, as in the source where it yields NaN). -/
noncomputable def normalize (v : V3) : V3 := (1 / norm3 v) • v

/-- Dot product of homogeneous four-vectors. -/
noncomputable def dot4 (a b : Fin 4 → ℝ) : ℝ :=
  a 0 * b 0 + a 1 * b 1 + a 2 * b 2 + a 3 * b 3

/-- Magnitude of a homogeneous four-vector. -/
noncomputable def norm4 (v : Fin 4 → ℝ) : ℝ := Real.sqrt (dot4 v v)

/-- `Vector4::normalize`, applied in `through_screen` to the 4-component
difference `world_point1 - world_point0` before truncation. -/
noncomputable def normalize4 (v : Fin 4 → ℝ) : Fin 4 → ℝ :=
  fun i => v i * (1 / norm4 v)

/-- The `Ray` struct: an origin `point` and a `direction`. -/
structure Ray where
  point : V3
  direction : V3

/-- `Ray::new`: stores the origin and the normalized direction. -/
noncomputable def Ray.new (point direction : V3) : Ray :=
  { point := point, direction := normalize direction }

/-- `Ray::point_at`: `self.point + (self.direction * t)`. -/
noncomputable def Ray.point_at (r : Ray) (t : ℝ) : V3 :=
  r.point + t • r.direction

/-- Normalized device x-coordinate of a pixel: `2.0 * ((x + 0.5) / width) - 1.0`. -/
noncomputable def screenX (x width : ℝ) : ℝ := 2 * ((x + 0.5) / width) - 1

/-- Normalized device y-coordinate of a pixel: `-(2.0 * ((y + 0.5) / height) - 1.0)`. -/
noncomputable def screenY (y height : ℝ) : ℝ := -(2 * ((y + 0.5) / height) - 1)

/-- Application of the inverted camera transform to the homogeneous point
`(sx, sy, z, 1)` (the `inverse * point0` / `inverse * point1` steps of
`through_screen`). -/
noncomputable def unproject (camera_transform : Matrix (Fin 4) (Fin 4) ℝ)
    (sx sy z : ℝ) : Fin 4 → ℝ :=
  camera_transform⁻¹.mulVec ![sx, sy, z, 1]

/-- The perspective divide `world_point / world_point.w`. -/
noncomputable def perspectiveDivide (v : Fin 4 → ℝ) : Fin 4 → ℝ :=
  fun i => v i / v 3

/-- `Ray::through_screen`: un-project the pixel at clip depths `-1` and `1`,
perspective-divide both, and take the near point together with the normalized
(4-component, then truncated) difference as the ray. -/
noncomputable def Ray.through_screen (x y width height : ℝ)
    (camera_transform : Matrix (Fin 4) (Fin 4) ℝ) : Ray :=
  let wp0 := perspectiveDivide
    (unproject camera_transform (screenX x width) (screenY y height) (-1))
  let wp1 := perspectiveDivide
    (unproject camera_transform (screenX x width) (screenY y height) 1)
  let world_dir := normalize4 (fun i => wp1 i - wp0 i)
  { point := ⟨wp0 0, wp0 1, wp0 2⟩,
    direction := ⟨world_dir 0, world_dir 1, world_dir 2⟩ }

/-- The `Sphere` struct: center, radius, flat color.  Also reused verbatim as
a light.  Equality is structural, as with the derived `PartialEq`. -/
structure Sphere where
  center : V3
  radius : ℝ
  color : V3

/-- The local `l = self.center - ray.point` of `Sphere::intersect`. -/
noncomputable def Sphere.lvec (s : Sphere) (ray : Ray) : V3 :=
  s.center - ray.point

/-- The local `v = l.dot(ray.direction)` of `Sphere::intersect`. -/
noncomputable def Sphere.vproj (s : Sphere) (ray : Ray) : ℝ :=
  dot3 (s.lvec ray) ray.direction

/-- The local `d2 = l.dot(l) - v * v` of `Sphere::intersect`. -/
noncomputable def Sphere.d2 (s : Sphere) (ray : Ray) : ℝ :=
  dot3 (s.lvec ray) (s.lvec ray) - s.vproj ray * s.vproj ray

/-- `Sphere::intersect` (the `Intersect` impl): reject when `v < 0.0`, reject
when `d2 > r2`, otherwise return `Some(v - d.min(v + d))` with
`d = (r2 - d2).sqrt()`. -/
noncomputable def Sphere.intersect (s : Sphere) (ray : Ray) : Option ℝ :=
  if s.vproj ray < 0 then none
  else if s.d2 ray > s.radius * s.radius then none
  else some (s.vproj ray -
    min (Real.sqrt (s.radius * s.radius - s.d2 ray))
      (s.vproj ray + Real.sqrt (s.radius * s.radius - s.d2 ray)))

/-- The closest-hit loop of `Scene::trace`: walk the sphere list keeping
`(closest_sphere, min_t)`, replacing the accumulator exactly when a sphere
intersects with `t < min_t`.  The initial accumulator `none` plays the role
of `(None, f32::INFINITY)`: the first intersection is always accepted, since
every real `t` satisfies `t < ∞`. -/
noncomputable def closestLoop (ray : Ray) :
    List Sphere → Option (Sphere × ℝ) → Option (Sphere × ℝ)
  | [], acc => acc
  | s :: rest, acc =>
    match s.intersect ray, acc with
    | none, acc => closestLoop ray rest acc
    | some t, none => closestLoop ray rest (some (s, t))
    | some t, some (cs, mt) =>
      if t < mt then closestLoop ray rest (some (s, t))
      else closestLoop ray rest (some (cs, mt))

/-- The visible-surface determination of `Scene::trace` (lines 175–185). -/
noncomputable def closestHit (spheres : List Sphere) (ray : Ray) :
    Option (Sphere × ℝ) :=
  closestLoop ray spheres none

/-- The shadow scan of `Scene::trace`: some sphere other than the hit sphere
(`sphere == closest_sphere` is skipped, structural equality) intersects the
shadow ray. -/
def inShadow (spheres : List Sphere) (closest_sphere : Sphere)
    (light_ray : Ray) : Prop :=
  ∃ s ∈ spheres, s ≠ closest_sphere ∧ (s.intersect light_ray).isSome

open Classical in
/-- The light loop of `Scene::trace` (lines 190–206).  Both branches of the
body `return`, so the loop inspects only the head of the light list; an empty
list falls through to `return self.ambient` (line 207). -/
noncomputable def lightLoop (spheres : List Sphere) (ambient : V3) (ray : Ray)
    (closest_sphere : Sphere) (min_t : ℝ) : List Sphere → V3
  | [] => ambient
  | light :: _ =>
    let intersection_point := ray.point_at min_t
    let light_direction := normalize (light.center - intersection_point)
    let light_ray := Ray.new intersection_point light_direction
    if inShadow spheres closest_sphere light_ray then
      closest_sphere.color * ambient
    else
      let lambert :=
        max (dot3 (normalize (intersection_point - closest_sphere.center))
          light_direction) 0
      let diffuse : V3 := ⟨0.5, 0.4, 0.5⟩
      let illumination := ambient + lambert • diffuse
      closest_sphere.color * illumination

/-- The `Scene` struct: camera transform, spheres, lights (spheres reused as
lights), ambient color. -/
structure Scene where
  camera : Matrix (Fin 4) (Fin 4) ℝ
  spheres : List Sphere
  lights : List Sphere
  ambient : V3

/-- `Scene::trace`: find the closest hit; if none, return ambient; otherwise
run the light loop. -/
noncomputable def Scene.trace (scene : Scene) (ray : Ray) : V3 :=
  match closestHit scene.spheres ray with
  | none => scene.ambient
  | some (closest_sphere, min_t) =>
    lightLoop scene.spheres scene.ambient ray closest_sphere min_t scene.lights

/-- Rust's saturating `f32 as u8` cast composed with the truncation toward
zero: negative inputs give `0`, inputs above `255` give `255`, and otherwise
the fractional part is dropped. -/
noncomputable def u8ofFloat (v : ℝ) : ℕ :=
  if v < 0 then 0 else if 255 < v then 255 else Nat.floor v

/-- The pixel write of `Scene::render`: each channel is `min`-ed with `1.0`,
scaled by `255.0` and cast to `u8`. -/
noncomputable def writePixel (color : V3) : ℕ × ℕ × ℕ :=
  (u8ofFloat (min color.x 1 * 255),
   u8ofFloat (min color.y 1 * 255),
   u8ofFloat (min color.z 1 * 255))

/-- `Scene::render`, viewed as the grid of RGB byte triples it writes to the
image buffer: the pixel at `(x, y)` receives the traced color of the camera
ray through that pixel, converted by `writePixel`. -/
noncomputable def Scene.render (scene : Scene) (width height x y : ℕ) :
    ℕ × ℕ × ℕ :=
  writePixel (scene.trace
    (Ray.through_screen x y width height scene.camera))

/-! ### General lemmas about the embedded operations -/

theorem dot3_pos (v : V3) (h : v ≠ 0) : 0 < dot3 v v := by
  have hne : v.x ≠ 0 ∨ v.y ≠ 0 ∨ v.z ≠ 0 := by
    by_contra hc
    push_neg at hc
    exact h (by ext <;> simp [hc.1, hc.2.1, hc.2.2])
  unfold dot3
  rcases hne with h1 | h1 | h1 <;>
    nlinarith [mul_self_pos.mpr h1, mul_self_nonneg v.x, mul_self_nonneg v.y,
      mul_self_nonneg v.z]

theorem dot3_smul (r : ℝ) (v : V3) :
    dot3 (r • v) (r • v) = r ^ 2 * dot3 v v := by
  unfold dot3
  simp only [V3.smul_x, V3.smul_y, V3.smul_z]
  ring

theorem norm3_normalize (v : V3) (h : v ≠ 0) : norm3 (normalize v) = 1 := by
  have hpos := dot3_pos v h
  have key : dot3 (normalize v) (normalize v) = 1 := by
    unfold normalize norm3
    rw [dot3_smul, div_pow, one_pow, Real.sq_sqrt hpos.le, one_div,
      inv_mul_cancel₀ (ne_of_gt hpos)]
  unfold norm3
  rw [key, Real.sqrt_one]

theorem dot4_pos (v : Fin 4 → ℝ) (h : v ≠ 0) : 0 < dot4 v v := by
  obtain ⟨i, hi⟩ := Function.ne_iff.mp h
  rw [Pi.zero_apply] at hi
  unfold dot4
  fin_cases i <;>
    first
    | (have hi' : v 0 ≠ 0 := hi
       nlinarith [mul_self_pos.mpr hi', mul_self_nonneg (v 1),
         mul_self_nonneg (v 2), mul_self_nonneg (v 3)])
    | (have hi' : v 1 ≠ 0 := hi
       nlinarith [mul_self_pos.mpr hi', mul_self_nonneg (v 0),
         mul_self_nonneg (v 2), mul_self_nonneg (v 3)])
    | (have hi' : v 2 ≠ 0 := hi
       nlinarith [mul_self_pos.mpr hi', mul_self_nonneg (v 0),
         mul_self_nonneg (v 1), mul_self_nonneg (v 3)])
    | (have hi' : v 3 ≠ 0 := hi
       nlinarith [mul_self_pos.mpr hi', mul_self_nonneg (v 0),
         mul_self_nonneg (v 1), mul_self_nonneg (v 2)])

theorem dot4_normalize4 (v : Fin 4 → ℝ) (h : v ≠ 0) :
    dot4 (normalize4 v) (normalize4 v) = 1 := by
  have hpos := dot4_pos v h
  have h1 : dot4 (normalize4 v) (normalize4 v) = (1 / norm4 v) ^ 2 * dot4 v v := by
    unfold normalize4 dot4
    ring
  rw [h1]
  unfold norm4
  rw [div_pow, one_pow, Real.sq_sqrt hpos.le, one_div,
    inv_mul_cancel₀ (ne_of_gt hpos)]

theorem sqrt_four : Real.sqrt 4 = 2 := by
  rw [show (4 : ℝ) = 2 ^ 2 by norm_num, Real.sqrt_sq (by norm_num : (0:ℝ) ≤ 2)]

theorem sqrt_twentyfive : Real.sqrt 25 = 5 := by
  rw [show (25 : ℝ) = 5 ^ 2 by norm_num, Real.sqrt_sq (by norm_num : (0:ℝ) ≤ 5)]

theorem u8ofFloat_min_mul (a : ℝ) :
    u8ofFloat (min a 1 * 255) = Nat.floor (max 0 (min a 1) * 255) := by
  unfold u8ofFloat
  rcases lt_or_le a 0 with h | h
  · have hmin : min a 1 = a := min_eq_left (by linarith)
    rw [hmin, if_pos (by nlinarith), max_eq_left h.le, zero_mul]
    norm_num
  · have h0 : 0 ≤ min a 1 := le_min h zero_le_one
    have h1 : min a 1 ≤ 1 := min_le_right a 1
    rw [if_neg (by nlinarith), if_neg (by nlinarith), max_eq_right h0]

theorem u8ofFloat_of_neg (a : ℝ) (h : a < 0) : u8ofFloat (min a 1 * 255) = 0 := by
  unfold u8ofFloat
  have hmin : min a 1 = a := min_eq_left (by linarith)
  rw [hmin, if_pos (by nlinarith)]

theorem u8ofFloat_of_big (a : ℝ) (h : 1 < a) : u8ofFloat (min a 1 * 255) = 255 := by
  unfold u8ofFloat
  have hmin : min a 1 = 1 := min_eq_right h.le
  rw [hmin, one_mul, if_neg (by norm_num), if_neg (by norm_num)]
  norm_num

/-! ### Concrete fixtures used by the witnesses -/

/-- Sphere of radius `1` at `(3,0,0)`: hit by `rayR` at `t = 2`. -/
noncomputable def sphereA : Sphere := ⟨⟨3, 0, 0⟩, 1, ⟨1, 1, 1⟩⟩

/-- Sphere of radius `1` at `(2,-2,0)`: off the axis of `rayR`, but directly
between the hit point `(2,0,0)` of `sphereA` and the light `lightM`. -/
noncomputable def sphereB : Sphere := ⟨⟨2, -2, 0⟩, 1, ⟨1, 0, 0⟩⟩

/-- Unit sphere at the origin: `rayR` starts at its center. -/
noncomputable def unitSphere : Sphere := ⟨⟨0, 0, 0⟩, 1, ⟨1, 1, 1⟩⟩

/-- Light placed at the origin (behind `rayR`'s origin as seen from the hit
point of `sphereA`). -/
noncomputable def lightL : Sphere := ⟨⟨0, 0, 0⟩, 1, ⟨1, 1, 1⟩⟩

/-- Second light, never reached by the trace. -/
noncomputable def lightL2 : Sphere := ⟨⟨9, 9, 9⟩, 1, ⟨1, 1, 1⟩⟩

/-- Light at `(2,-5,0)`, straight below the hit point `(2,0,0)` of `sphereA`,
with `sphereB` in between. -/
noncomputable def lightM : Sphere := ⟨⟨2, -5, 0⟩, 1, ⟨1, 1, 1⟩⟩

/-- Ray from the origin along the positive x-axis (already unit length). -/
noncomputable def rayR : Ray := ⟨⟨0, 0, 0⟩, ⟨1, 0, 0⟩⟩

/-- One sphere, two lights, unobstructed path to the first light. -/
noncomputable def sceneLit : Scene := ⟨1, [sphereA], [lightL, lightL2], ⟨0.3, 0.3, 0.3⟩⟩

/-- Two spheres and one light, with `sphereB` occluding the shadow ray. -/
noncomputable def sceneShadow : Scene := ⟨1, [sphereA, sphereB], [lightM], ⟨0.3, 0.3, 0.3⟩⟩

/-- One sphere and no lights. -/
noncomputable def sceneNoLights : Scene := ⟨1, [sphereA], [], ⟨0.3, 0.3, 0.3⟩⟩

/-- No spheres: every trace returns the (deliberately out-of-gamut) ambient. -/
noncomputable def sceneEmpty : Scene := ⟨1, [], [], ⟨-1, 1/2, 2⟩⟩

theorem sphereA_radius : sphereA.radius = 1 := rfl

theorem sphereA_vproj : sphereA.vproj rayR = 3 := by
  norm_num [Sphere.vproj, Sphere.lvec, dot3, sphereA, rayR]

theorem sphereA_d2 : sphereA.d2 rayR = 0 := by
  norm_num [Sphere.d2, Sphere.vproj, Sphere.lvec, dot3, sphereA, rayR]

theorem sphereA_intersect_rayR : sphereA.intersect rayR = some 2 := by
  simp only [Sphere.intersect, sphereA_vproj, sphereA_d2, sphereA_radius]
  norm_num [Real.sqrt_one, min_def]

theorem sphereB_intersect_rayR : sphereB.intersect rayR = none := by
  have hd2 : sphereB.d2 rayR = 4 := by
    norm_num [Sphere.d2, Sphere.vproj, Sphere.lvec, dot3, sphereB, rayR]
  have hv : sphereB.vproj rayR = 2 := by
    norm_num [Sphere.vproj, Sphere.lvec, dot3, sphereB, rayR]
  simp only [Sphere.intersect, hv, hd2, show sphereB.radius = 1 from rfl]
  norm_num

theorem unitSphere_vproj : unitSphere.vproj rayR = 0 := by
  norm_num [Sphere.vproj, Sphere.lvec, dot3, unitSphere, rayR]

theorem unitSphere_d2 : unitSphere.d2 rayR = 0 := by
  norm_num [Sphere.d2, Sphere.vproj, Sphere.lvec, dot3, unitSphere, rayR]

theorem unitSphere_intersect_rayR : unitSphere.intersect rayR = some (-1) := by
  simp only [Sphere.intersect, unitSphere_vproj, unitSphere_d2,
    show unitSphere.radius = 1 from rfl]
  norm_num [Real.sqrt_one, min_def]

theorem closestHit_single : closestHit [sphereA] rayR = some (sphereA, 2) := by
  simp [closestHit, closestLoop, sphereA_intersect_rayR]

theorem closestHit_shadowScene :
    closestHit [sphereA, sphereB] rayR = some (sphereA, 2) := by
  simp [closestHit, closestLoop, sphereA_intersect_rayR, sphereB_intersect_rayR]

theorem rayR_point_at_two : rayR.point_at 2 = ⟨2, 0, 0⟩ := by
  ext <;> norm_num [Ray.point_at, rayR]

theorem norm3_zero_neg_five : norm3 (⟨0, -5, 0⟩ : V3) = 5 := by
  unfold norm3 dot3
  norm_num [sqrt_twentyfive]

theorem normalize_to_lightM :
    normalize (lightM.center - rayR.point_at 2) = ⟨0, -1, 0⟩ := by
  have h1 : lightM.center - rayR.point_at 2 = ⟨0, -5, 0⟩ := by
    ext <;> norm_num [lightM, rayR_point_at_two]
  rw [h1]
  unfold normalize
  rw [norm3_zero_neg_five]
  ext <;> norm_num

theorem normalize_down : normalize (⟨0, -1, 0⟩ : V3) = ⟨0, -1, 0⟩ := by
  have h : norm3 (⟨0, -1, 0⟩ : V3) = 1 := by
    unfold norm3 dot3
    norm_num [Real.sqrt_one]
  unfold normalize
  rw [h]
  ext <;> norm_num

theorem shadow_ray_eval :
    Ray.new (rayR.point_at 2) (normalize (lightM.center - rayR.point_at 2)) =
      { point := ⟨2, 0, 0⟩, direction := ⟨0, -1, 0⟩ } := by
  rw [normalize_to_lightM, rayR_point_at_two]
  unfold Ray.new
  rw [normalize_down]

theorem sphereB_blocks :
    (sphereB.intersect { point := ⟨2, 0, 0⟩, direction := ⟨0, -1, 0⟩ }).isSome := by
  have hv : sphereB.vproj { point := ⟨2, 0, 0⟩, direction := ⟨0, -1, 0⟩ } = 2 := by
    norm_num [Sphere.vproj, Sphere.lvec, dot3, sphereB]
  have hd2 : sphereB.d2 { point := ⟨2, 0, 0⟩, direction := ⟨0, -1, 0⟩ } = 0 := by
    norm_num [Sphere.d2, Sphere.vproj, Sphere.lvec, dot3, sphereB]
  simp only [Sphere.intersect, hv, hd2, show sphereB.radius = 1 from rfl]
  norm_num

theorem sphereB_ne_sphereA : sphereB ≠ sphereA := by
  intro h
  have := congrArg (fun s => s.center.x) h
  norm_num [sphereA, sphereB] at this

theorem shadow_holds :
    inShadow [sphereA, sphereB] sphereA
      (Ray.new (rayR.point_at 2) (normalize (lightM.center - rayR.point_at 2))) := by
  refine ⟨sphereB, by simp, sphereB_ne_sphereA, ?_⟩
  rw [shadow_ray_eval]
  exact sphereB_blocks

theorem no_shadow_single (lray : Ray) : ¬ inShadow [sphereA] sphereA lray := by
  rintro ⟨s, hs, hne, -⟩
  simp at hs
  exact hne hs

theorem unproject_one (sx sy z : ℝ) : unproject 1 sx sy z = ![sx, sy, z, 1] := by
  unfold unproject
  rw [inv_one, Matrix.one_mulVec]

/-! ### Claim theorems -/

/-- Claim C3: for every sphere and every ray, `intersect` returns `none` if
and only if `v < 0` or `d2 > radius²` (where `l = center - ray.origin`,
`v = dot(l, direction)`, `d2 = dot(l,l) - v*v`), and in all other cases it
returns a hit value (`some`). -/
theorem intersect_none_iff (s : Sphere) (ray : Ray) :
    (s.intersect ray = none ↔
      s.vproj ray < 0 ∨ s.d2 ray > s.radius * s.radius) ∧
    ((s.intersect ray).isSome ↔
      ¬ (s.vproj ray < 0 ∨ s.d2 ray > s.radius * s.radius)) := by
  unfold Sphere.intersect
  split_ifs with h1 h2 <;> simp [*]

/-- Claim C4: whenever `intersect` does not reject (`v ≥ 0` and
`d2 ≤ radius²`, with `d = sqrt(radius² - d2)`), the returned hit distance
equals `min (v - d) (v + d)`, and the source's arithmetic form
`v - min d (v + d)` equals `v - d`, the near root. -/
theorem intersect_near_root (s : Sphere) (ray : Ray)
    (hv : ¬ s.vproj ray < 0) (hd : ¬ s.d2 ray > s.radius * s.radius) :
    s.intersect ray =
      some (min (s.vproj ray - Real.sqrt (s.radius * s.radius - s.d2 ray))
        (s.vproj ray + Real.sqrt (s.radius * s.radius - s.d2 ray))) ∧
    s.vproj ray -
        min (Real.sqrt (s.radius * s.radius - s.d2 ray))
          (s.vproj ray + Real.sqrt (s.radius * s.radius - s.d2 ray)) =
      s.vproj ray - Real.sqrt (s.radius * s.radius - s.d2 ray) := by
  have h0 : (0:ℝ) ≤ Real.sqrt (s.radius * s.radius - s.d2 ray) :=
    Real.sqrt_nonneg _
  have hv' : 0 ≤ s.vproj ray := not_lt.mp hv
  have hmin1 : min (Real.sqrt (s.radius * s.radius - s.d2 ray))
      (s.vproj ray + Real.sqrt (s.radius * s.radius - s.d2 ray)) =
      Real.sqrt (s.radius * s.radius - s.d2 ray) :=
    min_eq_left (by linarith)
  have hmin2 : min (s.vproj ray - Real.sqrt (s.radius * s.radius - s.d2 ray))
      (s.vproj ray + Real.sqrt (s.radius * s.radius - s.d2 ray)) =
      s.vproj ray - Real.sqrt (s.radius * s.radius - s.d2 ray) :=
    min_eq_left (by linarith)
  constructor
  · unfold Sphere.intersect
    rw [if_neg hv, if_neg hd, hmin1, hmin2]
  · rw [hmin1]

/-- Witness for claim C4's theorem at `sphereA` and `rayR` (where `v = 3`,
`d2 = 0`, `radius = 1`, so neither rejection guard fires). -/
theorem intersect_near_root_witness :
    sphereA.intersect rayR =
      some (min (sphereA.vproj rayR -
          Real.sqrt (sphereA.radius * sphereA.radius - sphereA.d2 rayR))
        (sphereA.vproj rayR +
          Real.sqrt (sphereA.radius * sphereA.radius - sphereA.d2 rayR))) ∧
    sphereA.vproj rayR -
        min (Real.sqrt (sphereA.radius * sphereA.radius - sphereA.d2 rayR))
          (sphereA.vproj rayR +
            Real.sqrt (sphereA.radius * sphereA.radius - sphereA.d2 rayR)) =
      sphereA.vproj rayR -
        Real.sqrt (sphereA.radius * sphereA.radius - sphereA.d2 rayR) :=
  intersect_near_root sphereA rayR
    (by rw [sphereA_vproj]; norm_num)
    (by rw [sphereA_d2, sphereA_radius]; norm_num)

/-- Counterexample to claim C8: for the unit sphere at the origin and the
unit-direction ray starting at its center, `intersect` returns
`some (-radius)`, not a distance `≈ radius`; the returned `-1` is not the
claimed `1` (and no tolerance below `2` reconciles them). -/
theorem intersect_center_origin_cex :
    unitSphere.intersect rayR = some (-unitSphere.radius) ∧
    unitSphere.intersect rayR ≠ some unitSphere.radius ∧
    rayR.point = unitSphere.center ∧
    norm3 rayR.direction = 1 := by
  have h1 : unitSphere.intersect rayR = some (-1) := unitSphere_intersect_rayR
  refine ⟨?_, ?_, rfl, ?_⟩
  · rw [h1, show unitSphere.radius = 1 from rfl]
  · rw [h1, show unitSphere.radius = 1 from rfl]
    intro hc
    have := Option.some.inj hc
    norm_num at this
  · unfold norm3 dot3
    norm_num [rayR, Real.sqrt_one]

/-- Claim C8 as amended: for every sphere of nonnegative radius and every ray
whose origin equals the sphere's center (any unit direction), `intersect`
returns a hit with distance `t = -radius` — the *negated* radius, i.e. the
exit point distance with flipped sign produced by `v - min(d, v + d)` at
`v = 0`. -/
theorem intersect_center_origin (s : Sphere) (ray : Ray)
    (hp : ray.point = s.center) (hr : 0 ≤ s.radius)
    (_hu : norm3 ray.direction = 1) :
    s.intersect ray = some (-s.radius) := by
  have hl : s.lvec ray = 0 := by
    unfold Sphere.lvec
    rw [hp]
    ext <;> simp
  have hv : s.vproj ray = 0 := by
    unfold Sphere.vproj
    rw [hl]
    simp [dot3]
  have hd : s.d2 ray = 0 := by
    unfold Sphere.d2
    rw [hl, hv]
    simp [dot3]
  unfold Sphere.intersect
  rw [if_neg (by rw [hv]; norm_num),
    if_neg (by rw [hd]; push_neg; exact mul_self_nonneg s.radius), hv, hd,
    sub_zero, Real.sqrt_mul_self hr, zero_add, min_self, zero_sub]

/-- Witness for the amended claim C8 at the unit sphere and the ray from its
center along the x-axis. -/
theorem intersect_center_origin_witness :
    unitSphere.intersect rayR = some (-unitSphere.radius) :=
  intersect_center_origin unitSphere rayR rfl (by norm_num [unitSphere])
    (by unfold norm3 dot3; norm_num [rayR, Real.sqrt_one])

/-- Claim C10: `intersect` can return a negative hit distance — for the unit
sphere and the ray starting at its center the result is `some (-1)` — and the
closest-hit selection of `trace` accepts such negative values: with a second
sphere hit at the positive distance `2`, the scan still selects the negative
`-1`, since the loop only requires `t < min_t` with no lower bound. -/
theorem intersect_negative_t_accepted :
    unitSphere.intersect rayR = some (-1) ∧ ((-1 : ℝ) < 0) ∧
    closestHit [sphereA, unitSphere] rayR = some (unitSphere, -1) := by
  refine ⟨unitSphere_intersect_rayR, by norm_num, ?_⟩
  simp only [closestHit, closestLoop, sphereA_intersect_rayR,
    unitSphere_intersect_rayR]
  norm_num

/-- Claim C1: when `trace` finds a closest hit sphere, the lights collection
is non-empty, and no other sphere (structural inequality with the hit sphere)
intersects the shadow ray toward the first light, `trace` returns the
component-wise product `hit_color * (ambient + (0.5, 0.4, 0.5) * max 0 lambert)`
with `lambert = dot(normalize(intersection_point - sphere.center),
light_direction)`. -/
theorem trace_unobstructed (scene : Scene) (ray : Ray) (cs : Sphere) (t : ℝ)
    (light : Sphere) (rest : List Sphere)
    (hhit : closestHit scene.spheres ray = some (cs, t))
    (hl : scene.lights = light :: rest)
    (hsh : ¬ inShadow scene.spheres cs
      (Ray.new (ray.point_at t) (normalize (light.center - ray.point_at t)))) :
    scene.trace ray =
      cs.color * (scene.ambient +
        (max 0 (dot3 (normalize (ray.point_at t - cs.center))
          (normalize (light.center - ray.point_at t)))) • (⟨0.5, 0.4, 0.5⟩ : V3)) := by
  unfold Scene.trace
  rw [hhit, hl]
  simp only [lightLoop]
  rw [if_neg hsh, max_comm]

/-- Witness for claim C1's theorem on `sceneLit` (one sphere `sphereA`, two
lights, first light at the origin) and `rayR`: the hit is at `t = 2` and the
single scene sphere is the hit sphere itself, so nothing shadows. -/
theorem trace_unobstructed_witness :
    sceneLit.trace rayR =
      sphereA.color * (sceneLit.ambient +
        (max 0 (dot3 (normalize (rayR.point_at 2 - sphereA.center))
          (normalize (lightL.center - rayR.point_at 2)))) • (⟨0.5, 0.4, 0.5⟩ : V3)) :=
  trace_unobstructed sceneLit rayR sphereA 2 lightL [lightL2]
    closestHit_single rfl (no_shadow_single _)

/-- Claim C2: when `trace` finds a closest hit sphere, the lights collection
is non-empty, and some sphere other than the hit sphere (excluded by
structural equality) intersects the shadow ray toward the first light's
center, `trace` returns exactly `hit_color * ambient`, component-wise,
without any Lambertian contribution. -/
theorem trace_shadowed (scene : Scene) (ray : Ray) (cs : Sphere) (t : ℝ)
    (light : Sphere) (rest : List Sphere)
    (hhit : closestHit scene.spheres ray = some (cs, t))
    (hl : scene.lights = light :: rest)
    (hsh : inShadow scene.spheres cs
      (Ray.new (ray.point_at t) (normalize (light.center - ray.point_at t)))) :
    scene.trace ray = cs.color * scene.ambient := by
  unfold Scene.trace
  rw [hhit, hl]
  simp only [lightLoop]
  rw [if_pos hsh]

/-- Witness for claim C2's theorem on `sceneShadow` (`sphereA` hit at
`(2,0,0)`, light `lightM` straight below at `(2,-5,0)`, `sphereB` in
between). -/
theorem trace_shadowed_witness :
    sceneShadow.trace rayR = sphereA.color * sceneShadow.ambient :=
  trace_shadowed sceneShadow rayR sphereA 2 lightM []
    closestHit_shadowScene rfl shadow_holds

/-- Claim C5: with a non-empty lights collection and a ray that hits a
sphere, `trace` returns from inside the light iteration on the very first
light: its result is identical to tracing the same scene with all lights
after the first removed. -/
theorem trace_first_light_only (scene : Scene) (ray : Ray) (light : Sphere)
    (rest : List Sphere) (hl : scene.lights = light :: rest)
    (cs : Sphere) (t : ℝ)
    (hhit : closestHit scene.spheres ray = some (cs, t)) :
    scene.trace ray = Scene.trace { scene with lights := [light] } ray := by
  unfold Scene.trace
  simp only [hl]
  rw [hhit]
  rfl

/-- Witness for claim C5's theorem on `sceneLit` (two lights): dropping the
second light does not change the traced color. -/
theorem trace_first_light_only_witness :
    sceneLit.trace rayR = Scene.trace { sceneLit with lights := [lightL] } rayR :=
  trace_first_light_only sceneLit rayR lightL [lightL2] rfl sphereA 2
    closestHit_single

/-- Claim C6: with an empty lights collection and a ray that hits at least
one sphere, `trace` returns exactly the scene's ambient color (the light-loop
body never executes even though a surface was hit). -/
theorem trace_hit_no_lights (scene : Scene) (ray : Ray) (cs : Sphere) (t : ℝ)
    (hl : scene.lights = []) (hhit : closestHit scene.spheres ray = some (cs, t)) :
    scene.trace ray = scene.ambient := by
  unfold Scene.trace
  rw [hhit, hl]
  rfl

/-- Witness for claim C6's theorem on `sceneNoLights` (`sphereA` is hit at
`t = 2`, no lights). -/
theorem trace_hit_no_lights_witness :
    sceneNoLights.trace rayR = sceneNoLights.ambient :=
  trace_hit_no_lights sceneNoLights rayR sphereA 2 rfl closestHit_single

/-- Claim C7: for every pixel `(x, y)` in range, `render` writes the traced
color with each channel clamped to `[0, 1]`, scaled to `[0, 255]` and
truncated to an integer; in particular a channel below `0` is written as byte
`0` and a channel above `1` as byte `255`.  (The source only applies
`.min(1.0)`; the lower clamp is supplied by the saturating `as u8` cast.) -/
theorem render_clamps (scene : Scene) (width height x y : ℕ) (c : V3)
    (_hx : x < width) (_hy : y < height)
    (hc : scene.trace (Ray.through_screen x y width height scene.camera) = c) :
    scene.render width height x y =
      (Nat.floor (max 0 (min c.x 1) * 255), Nat.floor (max 0 (min c.y 1) * 255),
        Nat.floor (max 0 (min c.z 1) * 255)) ∧
    (c.x < 0 → (scene.render width height x y).1 = 0) ∧
    (1 < c.x → (scene.render width height x y).1 = 255) ∧
    (c.y < 0 → (scene.render width height x y).2.1 = 0) ∧
    (1 < c.y → (scene.render width height x y).2.1 = 255) ∧
    (c.z < 0 → (scene.render width height x y).2.2 = 0) ∧
    (1 < c.z → (scene.render width height x y).2.2 = 255) := by
  have hr : scene.render width height x y = writePixel c := by
    unfold Scene.render
    rw [hc]
  rw [hr]
  unfold writePixel
  refine ⟨?_, ?_, ?_, ?_, ?_, ?_, ?_⟩
  · rw [u8ofFloat_min_mul, u8ofFloat_min_mul, u8ofFloat_min_mul]
  · exact fun h => u8ofFloat_of_neg _ h
  · exact fun h => u8ofFloat_of_big _ h
  · exact fun h => u8ofFloat_of_neg _ h
  · exact fun h => u8ofFloat_of_big _ h
  · exact fun h => u8ofFloat_of_neg _ h
  · exact fun h => u8ofFloat_of_big _ h

/-- Witness for claim C7's theorem: `sceneEmpty` has no spheres, so every
trace returns its ambient `(-1, 1/2, 2)`, whose channels exercise the
below-`0`, in-gamut and above-`1` cases at pixel `(0,0)` of a `1×1` image. -/
theorem render_clamps_witness :
    sceneEmpty.render 1 1 0 0 =
      (Nat.floor (max 0 (min (-1 : ℝ) 1) * 255),
        Nat.floor (max 0 (min (1/2 : ℝ) 1) * 255),
        Nat.floor (max 0 (min (2 : ℝ) 1) * 255)) ∧
    ((-1 : ℝ) < 0 → (sceneEmpty.render 1 1 0 0).1 = 0) ∧
    ((1 : ℝ) < -1 → (sceneEmpty.render 1 1 0 0).1 = 255) ∧
    ((1/2 : ℝ) < 0 → (sceneEmpty.render 1 1 0 0).2.1 = 0) ∧
    ((1 : ℝ) < 1/2 → (sceneEmpty.render 1 1 0 0).2.1 = 255) ∧
    ((2 : ℝ) < 0 → (sceneEmpty.render 1 1 0 0).2.2 = 0) ∧
    ((1 : ℝ) < 2 → (sceneEmpty.render 1 1 0 0).2.2 = 255) :=
  render_clamps sceneEmpty 1 1 0 0 ⟨-1, 1/2, 2⟩ (by norm_num) (by norm_num) rfl

/-- Claim C9: every constructed ray has a unit-length stored direction — for
`Ray::new` whenever the supplied direction is non-zero, and for
`Ray::through_screen` whenever the perspective divides are by non-zero `w`
components and the difference vector handed to `normalize` is non-zero. -/
theorem ray_direction_unit :
    (∀ (p d : V3), d ≠ 0 → norm3 (Ray.new p d).direction = 1) ∧
    (∀ (x y width height : ℝ) (M : Matrix (Fin 4) (Fin 4) ℝ),
      unproject M (screenX x width) (screenY y height) (-1) 3 ≠ 0 →
      unproject M (screenX x width) (screenY y height) 1 3 ≠ 0 →
      (fun i => perspectiveDivide (unproject M (screenX x width) (screenY y height) 1) i -
        perspectiveDivide (unproject M (screenX x width) (screenY y height) (-1)) i) ≠ 0 →
      norm3 (Ray.through_screen x y width height M).direction = 1) := by
  constructor
  · intro p d hd
    exact norm3_normalize d hd
  · intro x y width height M hw0 hw1 hne
    set w : Fin 4 → ℝ := fun i =>
      perspectiveDivide (unproject M (screenX x width) (screenY y height) 1) i -
      perspectiveDivide (unproject M (screenX x width) (screenY y height) (-1)) i
      with hwdef
    have hw3 : w 3 = 0 := by
      simp only [hwdef, perspectiveDivide]
      rw [div_self hw1, div_self hw0, sub_self]
    have hkey := dot4_normalize4 w hne
    have hdir : (Ray.through_screen x y width height M).direction =
        ⟨normalize4 w 0, normalize4 w 1, normalize4 w 2⟩ := by
      rw [hwdef]
      rfl
    rw [hdir]
    have hn3 : normalize4 w 3 = 0 := by
      unfold normalize4
      rw [hw3, zero_mul]
    have hsum : normalize4 w 0 * normalize4 w 0 + normalize4 w 1 * normalize4 w 1 +
        normalize4 w 2 * normalize4 w 2 = 1 := by
      unfold dot4 at hkey
      rw [hn3] at hkey
      linarith
    show Real.sqrt (normalize4 w 0 * normalize4 w 0 +
      normalize4 w 1 * normalize4 w 1 + normalize4 w 2 * normalize4 w 2) = 1
    rw [hsum, Real.sqrt_one]

/-- Witness for claim C9's theorem: `Ray::new` at the non-zero direction
`(0,0,1)`, and `Ray::through_screen` at pixel `(0,0)` of a `1×1` screen with
the identity camera transform (where both unprojected `w` components are `1`
and the difference vector is `(0,0,2,0)`). -/
theorem ray_direction_unit_witness :
    norm3 (Ray.new ⟨0, 0, 0⟩ ⟨0, 0, 1⟩).direction = 1 ∧
    norm3 (Ray.through_screen 0 0 1 1 (1 : Matrix (Fin 4) (Fin 4) ℝ)).direction = 1 :=
  ⟨ray_direction_unit.1 ⟨0, 0, 0⟩ ⟨0, 0, 1⟩ (by
      intro hzero
      have hz := congrArg V3.z hzero
      simp at hz),
   ray_direction_unit.2 0 0 1 1 1
     (by rw [unproject_one]; exact one_ne_zero)
     (by rw [unproject_one]; exact one_ne_zero)
     (by
       intro hzero
       have h2 := congrFun hzero 2
       rw [Pi.zero_apply, unproject_one, unproject_one] at h2
       have h3 : (1 : ℝ)/1 - (-1)/1 = 0 := h2
       norm_num at h3)⟩

end Raytracer
